import Mathlib

/-!
Verification of the eo_cd_slo resumable, checkpointed multi-stage pipeline
and of the TimescaleDB schema functions of this repository.

Sources embedded here:

* `timescaledb` schema (schema_v2.sql in the repository sources):
  the `grid_cells` / `eo` tables, the `eo_validate_and_populate` trigger
  function and the `upsert_eo` conflict-handling function are translated
  directly from the SQL.

* The pipeline package (cluster/pipeline: controller.py,
  utils/state_manager.py, modules/) is documented in the repository
  (cluster/README.md, checkpoint JSON layout, pipeline.sh control surface)
  but its Python sources are not among the files provided.  Every
  definition for it below is therefore modelled from the spec, as marked
  in its doc comment.
-/

namespace Pipeline

/-- Modelled from the spec: the three processing stages of the pipeline
(download / insert-store / BTC change detection, called Acquire, Persist
and DeriveChange in the spec). -/
inductive Stage
  | acquire
  | persist
  | deriveChange
deriving DecidableEq

/-- Modelled from the spec: task status enum
{Pending, Running, Completed, Failed, Skipped}. -/
inductive Status
  | pending
  | running
  | completed
  | failed
  | skipped
deriving DecidableEq

/-- Modelled from the spec: a task's identity is the tuple
(stage, period, cellId). -/
structure TaskId where
  stage : Stage
  period : Int
  cellId : Int
deriving DecidableEq

/-- Modelled from the spec: one unit of work, with status, nullable
timestamps and a nullable diagnostic string. -/
structure Task where
  id : TaskId
  status : Status
  startedAt : Option Int := none
  completedAt : Option Int := none
  error : Option String := none
deriving DecidableEq

/-- Modelled from the spec: the aggregate of all Tasks for one
(stage, period), with the four derived counters; `tasks` is the mapping
from task id to Task (ids are unique within a checkpoint). -/
structure Checkpoint where
  stageName : Stage
  period : Int
  totalTasks : Nat
  completedTasks : Nat
  failedTasks : Nat
  skippedTasks : Nat
  tasks : List Task
deriving DecidableEq

/-- Number of tasks in `ts` having status `s`. -/
def countStatus (ts : List Task) (s : Status) : Nat :=
  (ts.filter (fun t => decide (t.status = s))).length

/-- Modelled from the spec: recompute the four derived counters from the
`tasks` mapping, as the state manager must do before every save so that
the counters never drift from `tasks`. -/
def recount (cp : Checkpoint) : Checkpoint :=
  { cp with
    totalTasks := cp.tasks.length
    completedTasks := countStatus cp.tasks Status.completed
    failedTasks := countStatus cp.tasks Status.failed
    skippedTasks := countStatus cp.tasks Status.skipped }

/-- The checkpoint counter invariant: the four counters are exactly the
counts recomputable from the `tasks` mapping. -/
def countersOk (cp : Checkpoint) : Prop :=
  cp.totalTasks = cp.tasks.length ∧
  cp.completedTasks = countStatus cp.tasks Status.completed ∧
  cp.failedTasks = countStatus cp.tasks Status.failed ∧
  cp.skippedTasks = countStatus cp.tasks Status.skipped

instance (cp : Checkpoint) : Decidable (countersOk cp) := by
  unfold countersOk; infer_instance

/-- Modelled from the spec: a task id counts as done for replanning
purposes when it appears in the checkpoint with status Completed or
Skipped. -/
def isDone (cp : Checkpoint) (tid : TaskId) : Bool :=
  cp.tasks.any fun u =>
    decide (u.id = tid ∧ (u.status = Status.completed ∨ u.status = Status.skipped))

/-- Modelled from the spec: `Remaining(checkpoint, plannedTasks)` returns
plannedTasks minus those whose id appears in `checkpoint.tasks` with
status Completed or Skipped (Failed tasks are included). -/
def Remaining (cp : Checkpoint) (planned : List Task) : List Task :=
  planned.filter fun t => ! isDone cp t.id

/-- Modelled from the spec: on load, a task found with status Running is
reset to Pending; any other task is left as it is. -/
def recoverTask (t : Task) : Task :=
  if t.status = Status.running then { t with status := Status.pending } else t

/-- Modelled from the spec: `RecoverInFlight(checkpoint)` resets every
Running task of the loaded checkpoint to Pending. -/
def RecoverInFlight (cp : Checkpoint) : Checkpoint :=
  { cp with tasks := cp.tasks.map recoverTask }

/-- Modelled from the spec: the retry operation transitions a Failed task
to Pending and leaves any other task untouched. -/
def retryTask (t : Task) : Task :=
  if t.status = Status.failed then { t with status := Status.pending } else t

/-- Modelled from the spec: `RetryFailed` transitions all Failed tasks of
a checkpoint to Pending (Completed and Skipped tasks are untouched) and
recomputes the counters for the following save. -/
def RetryFailed (cp : Checkpoint) : Checkpoint :=
  recount { cp with tasks := cp.tasks.map retryTask }

/-- Modelled from the spec: the explicit fresh-start reset recreates the
checkpoint with all tasks Pending. -/
def resetCheckpoint (cp : Checkpoint) : Checkpoint :=
  recount
    { cp with
      tasks := cp.tasks.map fun t =>
        { t with
          status := Status.pending
          startedAt := none
          completedAt := none
          error := none } }

/-- Modelled from the spec: the Stage Handler Adapter capability
`Process(task) -> (ok, error)`. -/
def Handler : Type := TaskId → Bool × Option String

/-- Modelled from the spec: running one task — mark Running and record
`startedAt`, dispatch `Process`, then mark Completed, or Failed with the
returned error, recording `completedAt`. -/
def runTask (h : Handler) (now : Int) (t : Task) : Task :=
  let started := { t with status := Status.running, startedAt := some now }
  match h t.id with
  | (true, _) => { started with status := Status.completed, completedAt := some now }
  | (false, e) =>
      { started with status := Status.failed, completedAt := some now, error := e }

/-- Modelled from the spec: record a task outcome in the checkpoint's
task mapping — update the entry with the same id, or add the task as a
new entry when its id is not yet present (newly-added cells). -/
def upsertTask (ts : List Task) (t : Task) : List Task :=
  if ts.any (fun u => decide (u.id = t.id)) then
    ts.map fun u => if u.id = t.id then t else u
  else ts ++ [t]

/-- Modelled from the spec: one step of the batch loop — run the task,
record its outcome, and log the `Process` call made for it. -/
def runBatchStep (h : Handler) (now : Int) (acc : Checkpoint × List TaskId)
    (t : Task) : Checkpoint × List TaskId :=
  ({ acc.1 with tasks := upsertTask acc.1.tasks (runTask h now t) }, acc.2 ++ [t.id])

/-- Modelled from the spec: `RunBatch(tasks, handler)` executes every
given task through the handler, records outcomes in the checkpoint, and
recomputes the counters before the final save.  The second component is
the log of task ids on which `Process` was invoked, one entry per call. -/
def RunBatch (cp : Checkpoint) (remaining : List Task) (h : Handler)
    (now : Int) : Checkpoint × List TaskId :=
  let r := remaining.foldl (runBatchStep h now) (cp, [])
  (recount r.1, r.2)

/-- Modelled from the spec: the Pending task planned for one cell of a
(stage, period). -/
def mkTask (stage : Stage) (period : Int) (c : Int) : Task :=
  { id := ⟨stage, period, c⟩, status := Status.pending }

/-- Modelled from the spec: `Plan(stage, period, cellIds)` deterministically
builds one task per given cell id, in stable ascending cell id order. -/
def Plan (stage : Stage) (period : Int) (cellIds : List Int) : List Task :=
  (cellIds.dedup.insertionSort (· ≤ ·)).map (mkTask stage period)

/-- Modelled from the spec: status of the Persist task for a cell in a
persist checkpoint, `none` when the cell has no task there. -/
def statusOf (cp : Checkpoint) (cell : Int) : Option Status :=
  (cp.tasks.find? fun t => decide (t.id.cellId = cell)).map (·.status)

/-- Modelled from the spec: the reason string recorded for a skipped
DeriveChange cell, identifying the blocking period. -/
def reasonFor (period : Int) : String :=
  "Persist/" ++ toString period ++ " not completed"

/-- Modelled from the spec: `Eligible(cellIds, persistCheckpointA,
persistCheckpointB)`: a cell is ready iff its Persist task is Completed
in both periods; otherwise it is skipped with a reason naming the first
blocking period. -/
def Eligible (cellIds : List Int) (cpA cpB : Checkpoint) :
    List Int × List (Int × String) :=
  match cellIds with
  | [] => ([], [])
  | c :: rest =>
    let r := Eligible rest cpA cpB
    if statusOf cpA c = some Status.completed then
      if statusOf cpB c = some Status.completed then (c :: r.1, r.2)
      else (r.1, (c, reasonFor cpB.period) :: r.2)
    else (r.1, (c, reasonFor cpA.period) :: r.2)

/-- Modelled from the spec: the durable store for one (stage, period) —
the canonical checkpoint file's bytes, and the temporary file used by the
atomic save discipline (absent when no temp file exists). -/
structure Disk where
  canonical : List Nat
  temp : Option (List Nat)
deriving DecidableEq

/-- Modelled from the spec: one atomic disk operation of the save
discipline — appendingly rewrite the temporary file, or atomically rename
the temporary file over the canonical location. -/
inductive DiskOp
  | writeTemp (bytes : List Nat)
  | renameTempOverCanonical
deriving DecidableEq

/-- Modelled from the spec: effect of one atomic disk operation. -/
def opApply (d : Disk) : DiskOp → Disk
  | DiskOp.writeTemp bytes => { d with temp := some bytes }
  | DiskOp.renameTempOverCanonical =>
      { canonical := d.temp.getD d.canonical, temp := none }

/-- Modelled from the spec: `Save(checkpoint)` as the sequence of atomic
disk operations it performs for the serialized bytes `new`: write the
temporary file (byte by byte, so a crash can leave any truncated
prefix), then rename it over the canonical location. -/
def saveOps (new : List Nat) : List DiskOp :=
  ((List.range (new.length + 1)).map fun i => DiskOp.writeTemp (new.take i)) ++
    [DiskOp.renameTempOverCanonical]

/-- Modelled from the spec: the disk state when the process crashes after
the first `k` atomic operations of `Save` have been performed. -/
def crashDuring (d : Disk) (new : List Nat) (k : Nat) : Disk :=
  ((saveOps new).take k).foldl opApply d

/-- Modelled from the spec: what a reader of the checkpoint store
observes — the canonical file only. -/
def readCanonical (d : Disk) : List Nat := d.canonical

/-- Modelled from the spec: state of one Stage Runner worker pool — the
tasks not yet dispatched, the task ids with a `Process` call currently
in flight, and the finished ones. -/
structure RunnerState where
  pending : List TaskId
  inFlight : List TaskId
  done : List TaskId
deriving DecidableEq

/-- Modelled from the spec: an observable scheduling event of the
bounded pool — dispatching the next pending task, or an in-flight
`Process` call returning. -/
inductive RunnerEvent
  | dispatch
  | finish (t : TaskId)
deriving DecidableEq

/-- Modelled from the spec: one scheduler step of the bounded pool.  The
runner dispatches a new `Process` call only while strictly fewer than
`maxConcurrency` calls are in flight; `none` means the event cannot
happen in that state. -/
def runnerStep (maxConcurrency : Nat) (s : RunnerState) :
    RunnerEvent → Option RunnerState
  | RunnerEvent.dispatch =>
    match s.pending with
    | [] => none
    | t :: rest =>
      if s.inFlight.length < maxConcurrency then
        some ⟨rest, t :: s.inFlight, s.done⟩
      else none
  | RunnerEvent.finish t =>
    if t ∈ s.inFlight then
      some ⟨s.pending, s.inFlight.erase t, t :: s.done⟩
    else none

/-- Modelled from the spec: execution of a sequence of scheduling events
from a state; `none` when some event was impossible. -/
def runnerExec (maxConcurrency : Nat) (s : RunnerState) :
    List RunnerEvent → Option RunnerState
  | [] => some s
  | e :: es =>
    match runnerStep maxConcurrency s e with
    | none => none
    | some s2 => runnerExec maxConcurrency s2 es

/-- Modelled from the spec: the initial runner state of a batch — every
task pending, no `Process` call in flight. -/
def initRunner (tasks : List TaskId) : RunnerState := ⟨tasks, [], []⟩

end Pipeline

namespace Schema

/-- A point in time, as the trigger and upsert use it: `date_trunc`
needs the year and month components, equality on the full value models
TIMESTAMPTZ equality. -/
structure Timestamp where
  year : Int
  month : Nat
  day : Nat
  secondOfDay : Nat
deriving DecidableEq

/-- A DATE value (used for the `month` column of `eo`). -/
structure Date where
  year : Int
  month : Nat
  day : Nat
deriving DecidableEq

/-- Translated from the SQL: `date_trunc('month', t)::date` — the first
day of the month of `t`. -/
def dateTruncMonth (t : Timestamp) : Date :=
  ⟨t.year, t.month, 1⟩

/-- Translated from the SQL: one row of the `eo` table.  `Geo` is the
geography type (`GEOGRAPHY(POLYGON, 4326)`), kept abstract because the
schema only uses it through `ST_Area` and `ST_Intersection`. -/
structure EoRow (Geo : Type) where
  id : Nat
  time : Timestamp
  month : Date
  grid_id : Int
  bbox : Geo
  width : Option Int
  height : Option Int
  data_type : Option String
  b01 : Option (List Nat)
  b02 : Option (List Nat)
  b03 : Option (List Nat)
  b04 : Option (List Nat)
  b05 : Option (List Nat)
  b06 : Option (List Nat)
  b07 : Option (List Nat)
  b08 : Option (List Nat)
  b8a : Option (List Nat)
  b09 : Option (List Nat)
  b10 : Option (List Nat)
  b11 : Option (List Nat)
  b12 : Option (List Nat)
deriving DecidableEq

/-- Translated from the SQL: the parameters of `upsert_eo`. -/
structure UpsertArgs (Geo : Type) where
  p_time : Timestamp
  p_grid_id : Int
  p_bbox : Geo
  p_width : Option Int
  p_height : Option Int
  p_data_type : Option String
  p_b01 : Option (List Nat) := none
  p_b02 : Option (List Nat) := none
  p_b03 : Option (List Nat) := none
  p_b04 : Option (List Nat) := none
  p_b05 : Option (List Nat) := none
  p_b06 : Option (List Nat) := none
  p_b07 : Option (List Nat) := none
  p_b08 : Option (List Nat) := none
  p_b8a : Option (List Nat) := none
  p_b09 : Option (List Nat) := none
  p_b10 : Option (List Nat) := none
  p_b11 : Option (List Nat) := none
  p_b12 : Option (List Nat) := none
deriving DecidableEq

/-- Translated from the SQL: the row inserted by `upsert_eo` when there
is no conflict, with `month := date_trunc('month', p_time)::date` and a
fresh serial `id`. -/
def newEoRow {Geo : Type} (nextId : Nat) (a : UpsertArgs Geo) : EoRow Geo :=
  { id := nextId
    time := a.p_time
    month := dateTruncMonth a.p_time
    grid_id := a.p_grid_id
    bbox := a.p_bbox
    width := a.p_width
    height := a.p_height
    data_type := a.p_data_type
    b01 := a.p_b01
    b02 := a.p_b02
    b03 := a.p_b03
    b04 := a.p_b04
    b05 := a.p_b05
    b06 := a.p_b06
    b07 := a.p_b07
    b08 := a.p_b08
    b8a := a.p_b8a
    b09 := a.p_b09
    b10 := a.p_b10
    b11 := a.p_b11
    b12 := a.p_b12 }

/-- Translated from the SQL: the `ON CONFLICT (grid_id, month, time) DO
UPDATE SET ...` clause — every non-key data column is overwritten with
the excluded (new) values; `id`, `time`, `month` and `grid_id` are kept. -/
def overwriteRow {Geo : Type} (r : EoRow Geo) (a : UpsertArgs Geo) : EoRow Geo :=
  { r with
    bbox := a.p_bbox
    width := a.p_width
    height := a.p_height
    data_type := a.p_data_type
    b01 := a.p_b01
    b02 := a.p_b02
    b03 := a.p_b03
    b04 := a.p_b04
    b05 := a.p_b05
    b06 := a.p_b06
    b07 := a.p_b07
    b08 := a.p_b08
    b8a := a.p_b8a
    b09 := a.p_b09
    b10 := a.p_b10
    b11 := a.p_b11
    b12 := a.p_b12 }

/-- Translated from the SQL: a row conflicts with the arguments exactly
when it agrees on the `eo_unique_grid_month` key
`(grid_id, month, time)`, where the inserted month is
`date_trunc('month', p_time)::date`. -/
def eoKeyMatch {Geo : Type} (a : UpsertArgs Geo) (r : EoRow Geo) : Bool :=
  decide (r.grid_id = a.p_grid_id ∧ r.month = dateTruncMonth a.p_time ∧
    r.time = a.p_time)

/-- Translated from the SQL: the body of `upsert_eo` — INSERT the new
row, and ON CONFLICT on the `(grid_id, month, time)` unique key DO
UPDATE the conflicting row instead.  Returns the table and the next
serial id. -/
def upsert_eo {Geo : Type} (tbl : List (EoRow Geo)) (nextId : Nat)
    (a : UpsertArgs Geo) : List (EoRow Geo) × Nat :=
  if tbl.any (eoKeyMatch a) then
    (tbl.map fun r => if eoKeyMatch a r then overwriteRow r a else r, nextId)
  else (tbl ++ [newEoRow nextId a], nextId + 1)

/-- Translated from the SQL: the body of the `eo_validate_and_populate`
trigger function.  `area` models `ST_Area` and `inter` models
`ST_Intersection`; `grid_cells` maps each `grid_id` to its `bbox_4326`.
The trigger sets `NEW.month`, raises on an unknown `grid_id`, computes
`overlap_percent := overlap_area / grid_area * 100` and raises when it
is below 99; otherwise it returns the (populated) NEW row. -/
def eo_validate_and_populate {Geo : Type} (area : Geo → ℚ)
    (inter : Geo → Geo → Geo) (grid_cells : List (Int × Geo))
    (row : EoRow Geo) : Except String (EoRow Geo) :=
  let populated : EoRow Geo := { row with month := dateTruncMonth row.time }
  match (grid_cells.find? fun gc => decide (gc.1 = row.grid_id)).map (·.2) with
  | none => Except.error ("Invalid grid_id: " ++ toString row.grid_id)
  | some grid_geom =>
    let grid_area : ℚ := area grid_geom
    let overlap_area : ℚ := area (inter grid_geom row.bbox)
    let overlap_percent : ℚ := overlap_area / grid_area * 100
    if overlap_percent < 99 then
      Except.error
        ("Image bbox must have at least 99% overlap with grid cell " ++
          toString row.grid_id)
    else Except.ok populated

/-- Translated from the SQL: inserting one row into `eo` runs the
BEFORE INSERT trigger `trg_eo_validate`; when the trigger raises, the
statement fails and the table is unchanged, otherwise the row returned
by the trigger is stored. -/
def insertEoValidated {Geo : Type} (area : Geo → ℚ)
    (inter : Geo → Geo → Geo) (grid_cells : List (Int × Geo))
    (tbl : List (EoRow Geo)) (row : EoRow Geo) :
    List (EoRow Geo) × Option String :=
  match eo_validate_and_populate area inter grid_cells row with
  | Except.error e => (tbl, some e)
  | Except.ok r => (tbl ++ [r], none)

end Schema

namespace Pipeline

/-- The log of Process calls made by a batch is exactly one entry per
task of the batch, in order. -/
theorem runBatch_log (cp : Checkpoint) (remaining : List Task) (h : Handler)
    (now : Int) : (RunBatch cp remaining h now).2 = remaining.map Task.id := by
  suffices H : ∀ (rem : List Task) (acc : Checkpoint × List TaskId),
      (rem.foldl (runBatchStep h now) acc).2 = acc.2 ++ rem.map Task.id by
    simpa [RunBatch] using H remaining (cp, [])
  intro rem
  induction rem with
  | nil => simp
  | cons t ts ih =>
    intro acc
    simp [runBatchStep, ih, List.append_assoc]

/-- `recoverTask` never changes a task's identity. -/
theorem recoverTask_id (t : Task) : (recoverTask t).id = t.id := by
  unfold recoverTask; split <;> rfl

/-- C1: `Remaining(checkpoint, plannedTasks)` returns exactly the planned
tasks whose id does not appear in `checkpoint.tasks` with status
Completed or Skipped (so Failed tasks are included); and when every
planned task appears in the checkpoint with status Completed, `Remaining`
is empty and a full batch run over it performs zero Process calls. -/
theorem remaining_spec (cp : Checkpoint) (planned : List Task) (h : Handler)
    (now : Int) :
    (∀ t, t ∈ Remaining cp planned ↔
      t ∈ planned ∧
        ¬ ∃ u ∈ cp.tasks, u.id = t.id ∧
          (u.status = Status.completed ∨ u.status = Status.skipped)) ∧
    ((∀ u ∈ cp.tasks, u.status = Status.completed) →
      (∀ t ∈ planned, ∃ u ∈ cp.tasks, u.id = t.id) →
      Remaining cp planned = [] ∧
        (RunBatch cp (Remaining cp planned) h now).2 = []) := by
  constructor
  · intro t
    simp [Remaining, isDone, List.mem_filter, List.any_eq_true]
  · intro hall hcov
    have hnil : Remaining cp planned = [] := by
      rw [Remaining, List.filter_eq_nil_iff]
      intro t ht
      obtain ⟨u, hu, hid⟩ := hcov t ht
      simp only [isDone, Bool.not_eq_true', Bool.not_eq_false, List.any_eq_true]
      exact ⟨u, hu, by simp [hid, hall u hu]⟩
    refine ⟨hnil, ?_⟩
    rw [hnil]
    simp [RunBatch]

/-- Concrete inputs for the C1 witness: a checkpoint whose single task is
Completed, replanned over the same task id. -/
def w1id : TaskId := ⟨Stage.acquire, 2023, 1⟩

/-- C1 witness checkpoint. -/
def w1cp : Checkpoint :=
  { stageName := Stage.acquire, period := 2023, totalTasks := 1,
    completedTasks := 1, failedTasks := 0, skippedTasks := 0,
    tasks := [{ id := w1id, status := Status.completed }] }

/-- C1 witness plan. -/
def w1planned : List Task := [{ id := w1id, status := Status.pending }]

/-- C1 witness handler. -/
def w1h : Handler := fun _ => (true, none)

/-- Witness for C1 at concrete inputs: with the single task already
Completed, nothing remains and no Process call is made. -/
theorem remaining_spec_witness :
    Remaining w1cp w1planned = [] ∧
      (RunBatch w1cp (Remaining w1cp w1planned) w1h 0).2 = [] :=
  (remaining_spec w1cp w1planned w1h 0).2 (by decide) (by decide)

end Pipeline

namespace Pipeline

/-- After recovery, the id of task `T` (which was Running) is not done:
its only checkpoint entry now has status Pending. -/
theorem isDone_recover_false (cp : Checkpoint) (T : Task)
    (hnodupC : (cp.tasks.map Task.id).Nodup) (hmem : T ∈ cp.tasks)
    (hrun : T.status = Status.running) :
    isDone (RecoverInFlight cp) T.id = false := by
  rw [isDone, RecoverInFlight]
  simp only [List.any_map, List.any_eq_false, Function.comp_apply,
    decide_eq_true_eq, not_and]
  intro u hu hid
  by_cases hole : u.id = T.id
  · have : u = T := List.inj_on_of_nodup_map hnodupC hu hmem hole
    subst this
    simp [recoverTask, hrun]
  · rw [recoverTask_id] at hid
    exact absurd hid hole

/-- C2: `RecoverInFlight` maps every Running task to Pending and changes
no task with any other status (same number of tasks, non-Running tasks
kept as they are); and a task T that was Running is dispatched exactly
once by a subsequent run over the recovered checkpoint. -/
theorem recoverInFlight_spec (cp : Checkpoint) (planned : List Task)
    (T : Task) (h : Handler) (now : Int)
    (hnodupC : (cp.tasks.map Task.id).Nodup)
    (hnodupP : (planned.map Task.id).Nodup)
    (hmem : T ∈ cp.tasks) (hrun : T.status = Status.running)
    (hplan : T.id ∈ planned.map Task.id) :
    (RecoverInFlight cp).tasks.length = cp.tasks.length ∧
    (∀ u ∈ cp.tasks, u.status = Status.running →
      { u with status := Status.pending } ∈ (RecoverInFlight cp).tasks) ∧
    (∀ u ∈ cp.tasks, u.status ≠ Status.running →
      u ∈ (RecoverInFlight cp).tasks) ∧
    ((RunBatch (RecoverInFlight cp)
        (Remaining (RecoverInFlight cp) planned) h now).2).count T.id = 1 := by
  refine ⟨by simp [RecoverInFlight], ?_, ?_, ?_⟩
  · intro u hu hurun
    rw [RecoverInFlight]
    exact List.mem_map.mpr ⟨u, hu, by simp [recoverTask, hurun]⟩
  · intro u hu hunr
    rw [RecoverInFlight]
    exact List.mem_map.mpr ⟨u, hu, by simp [recoverTask, hunr]⟩
  · rw [runBatch_log]
    have hdone := isDone_recover_false cp T hnodupC hmem hrun
    rw [Remaining, List.count_eq_countP, List.countP_map, List.countP_filter]
    have hcongr : ∀ t ∈ planned,
        (((fun b => b == T.id) ∘ Task.id) t && (! isDone (RecoverInFlight cp) t.id)) = true ↔
          ((fun b => b == T.id) ∘ Task.id) t = true := by
      intro t _
      simp only [Function.comp_apply, Bool.and_eq_true, beq_iff_eq,
        Bool.not_eq_true']
      constructor
      · exact fun hx => hx.1
      · intro hx
        exact ⟨hx, by rw [hx]; exact hdone⟩
    rw [List.countP_congr hcongr, ← List.countP_map, ← List.count_eq_countP]
    exact List.count_eq_one_of_mem hnodupP hplan

/-- Concrete inputs for the C2 witness: a checkpoint whose single task is
Running when loaded. -/
def w2cp : Checkpoint :=
  { stageName := Stage.persist, period := 2024, totalTasks := 1,
    completedTasks := 0, failedTasks := 0, skippedTasks := 0,
    tasks := [{ id := ⟨Stage.persist, 2024, 7⟩, status := Status.running }] }

/-- C2 witness task. -/
def w2T : Task := { id := ⟨Stage.persist, 2024, 7⟩, status := Status.running }

/-- C2 witness plan. -/
def w2planned : List Task :=
  [{ id := ⟨Stage.persist, 2024, 7⟩, status := Status.pending }]

/-- Witness for C2 at concrete inputs: the Running task is reloaded as
Pending and the subsequent run dispatches it exactly once. -/
theorem recoverInFlight_spec_witness :
    { w2T with status := Status.pending } ∈ (RecoverInFlight w2cp).tasks ∧
      ((RunBatch (RecoverInFlight w2cp)
        (Remaining (RecoverInFlight w2cp) w2planned) w1h 0).2).count w2T.id = 1 := by
  have H := recoverInFlight_spec w2cp w2planned w2T w1h 0 (by decide) (by decide)
    (by decide) (by decide) (by decide)
  exact ⟨H.2.1 w2T (by decide) (by decide), H.2.2.2⟩

end Pipeline

namespace Pipeline

/-- A task differs from its retried form exactly when it was Failed. -/
theorem retryTask_changed (t : Task) :
    t ≠ retryTask t ↔ t.status = Status.failed := by
  constructor
  · intro hne
    by_contra hf
    exact hne (by simp [retryTask, hf])
  · intro hf he
    rw [retryTask, if_pos hf] at he
    have h2 := congrArg Task.status he
    simp only [] at h2
    rw [hf] at h2
    exact absurd h2 (by decide)

/-- The number of entries changed by retrying every task of a list is the
number of its Failed tasks. -/
theorem zip_retry_changed (ts : List Task) :
    ((ts.zip (ts.map retryTask)).filter fun p => decide (p.1 ≠ p.2)).length =
      countStatus ts Status.failed := by
  unfold countStatus
  induction ts with
  | nil => rfl
  | cons t ts ih =>
    simp only [ne_eq, decide_not] at ih
    by_cases hf : t.status = Status.failed
    · have hne : t ≠ retryTask t := (retryTask_changed t).mpr hf
      simp [List.filter_cons, hf, hne, ih]
    · have heq : retryTask t = t := by simp [retryTask, hf]
      simp [List.filter_cons, hf, heq, ih]

end Pipeline

namespace Pipeline

/-- C4: `RetryFailed` transitions exactly the Failed tasks to Pending:
position by position, a Failed task becomes the same task with status
Pending and every non-Failed task (Completed, Skipped, and any other) is
unchanged in all fields; the number of changed entries equals the number
of Failed tasks. -/
theorem retryFailed_spec (cp : Checkpoint) :
    (RetryFailed cp).tasks.length = cp.tasks.length ∧
    (∀ i (hi : i < cp.tasks.length) (hi2 : i < (RetryFailed cp).tasks.length),
      ((cp.tasks.get ⟨i, hi⟩).status = Status.failed →
        (RetryFailed cp).tasks.get ⟨i, hi2⟩ =
          { cp.tasks.get ⟨i, hi⟩ with status := Status.pending }) ∧
      ((cp.tasks.get ⟨i, hi⟩).status ≠ Status.failed →
        (RetryFailed cp).tasks.get ⟨i, hi2⟩ = cp.tasks.get ⟨i, hi⟩)) ∧
    ((cp.tasks.zip (RetryFailed cp).tasks).filter
        fun p => decide (p.1 ≠ p.2)).length = countStatus cp.tasks Status.failed := by
  have htasks : (RetryFailed cp).tasks = cp.tasks.map retryTask := rfl
  refine ⟨by simp [htasks], ?_, ?_⟩
  · intro i hi hi2
    have hget : (RetryFailed cp).tasks.get ⟨i, hi2⟩ =
        retryTask (cp.tasks.get ⟨i, hi⟩) := by
      simp [htasks]
    constructor
    · intro hf
      rw [hget, retryTask, if_pos hf]
    · intro hf
      rw [hget, retryTask, if_neg hf]
  · rw [htasks]
    exact zip_retry_changed cp.tasks

/-- Concrete checkpoint for the C4 witness: 3 Completed, 2 Failed,
1 Skipped tasks. -/
def w4cp : Checkpoint :=
  { stageName := Stage.persist, period := 2024, totalTasks := 6,
    completedTasks := 3, failedTasks := 2, skippedTasks := 1,
    tasks :=
      [{ id := ⟨Stage.persist, 2024, 1⟩, status := Status.completed },
       { id := ⟨Stage.persist, 2024, 2⟩, status := Status.completed },
       { id := ⟨Stage.persist, 2024, 3⟩, status := Status.completed },
       { id := ⟨Stage.persist, 2024, 4⟩, status := Status.failed },
       { id := ⟨Stage.persist, 2024, 5⟩, status := Status.failed },
       { id := ⟨Stage.persist, 2024, 6⟩, status := Status.skipped }] }

/-- Witness for C4 at the spec's example: on 3 Completed + 2 Failed +
1 Skipped, exactly 2 entries change, and e.g. position 0 (Completed) is
untouched while position 3 (Failed) becomes Pending. -/
theorem retryFailed_spec_witness :
    ((w4cp.tasks.zip (RetryFailed w4cp).tasks).filter
        fun p => decide (p.1 ≠ p.2)).length = 2 ∧
    (RetryFailed w4cp).tasks.get ⟨0, by decide⟩ = w4cp.tasks.get ⟨0, by decide⟩ ∧
    (RetryFailed w4cp).tasks.get ⟨3, by decide⟩ =
      { w4cp.tasks.get ⟨3, by decide⟩ with status := Status.pending } := by
  have H := retryFailed_spec w4cp
  refine ⟨?_, ?_, ?_⟩
  · rw [H.2.2]; decide
  · exact (H.2.1 0 (by decide) (by decide)).2 (by decide)
  · exact (H.2.1 3 (by decide) (by decide)).1 (by decide)

end Pipeline

namespace Pipeline

/-- Recomputing the counters always establishes the counter invariant. -/
theorem countersOk_recount (cp : Checkpoint) : countersOk (recount cp) :=
  ⟨rfl, rfl, rfl, rfl⟩

/-- Resetting Running tasks to Pending changes none of the Completed,
Failed or Skipped counts. -/
theorem countStatus_recover (ts : List Task) (s : Status)
    (h1 : Status.pending ≠ s) (h2 : Status.running ≠ s) :
    countStatus (ts.map recoverTask) s = countStatus ts s := by
  unfold countStatus
  rw [List.filter_map, List.length_map]
  congr 1
  apply List.filter_congr
  intro t _
  simp only [Function.comp_apply]
  by_cases ht : t.status = Status.running
  · rw [recoverTask, if_pos ht, ht]
    simp only []
    rw [decide_eq_false h1, decide_eq_false h2]
  · rw [recoverTask, if_neg ht]

/-- C6: every pipeline operation that saves — `RunBatch`, `RetryFailed`,
`RecoverInFlight` on load, and the fresh-start reset — leaves the four
counters equal to the counts recomputed from the `tasks` mapping. -/
theorem counters_invariant (cp : Checkpoint) (remaining : List Task)
    (h : Handler) (now : Int) (hok : countersOk cp) :
    countersOk (RunBatch cp remaining h now).1 ∧
    countersOk (RetryFailed cp) ∧
    countersOk (RecoverInFlight cp) ∧
    countersOk (resetCheckpoint cp) := by
  refine ⟨countersOk_recount _, countersOk_recount _, ?_, countersOk_recount _⟩
  obtain ⟨h1, h2, h3, h4⟩ := hok
  refine ⟨?_, ?_, ?_, ?_⟩
  · simpa [RecoverInFlight] using h1
  · simpa [RecoverInFlight, countStatus_recover cp.tasks Status.completed
      (by decide) (by decide)] using h2
  · simpa [RecoverInFlight, countStatus_recover cp.tasks Status.failed
      (by decide) (by decide)] using h3
  · simpa [RecoverInFlight, countStatus_recover cp.tasks Status.skipped
      (by decide) (by decide)] using h4

/-- Witness for C6 at concrete inputs: the invariant holds after every
operation on the example checkpoint with 3 Completed, 2 Failed and
1 Skipped tasks. -/
theorem counters_invariant_witness :
    countersOk (RunBatch w4cp w2planned w1h 0).1 ∧
    countersOk (RetryFailed w4cp) ∧
    countersOk (RecoverInFlight w4cp) ∧
    countersOk (resetCheckpoint w4cp) :=
  counters_invariant w4cp w2planned w1h 0 (by decide)

end Pipeline

namespace Pipeline

/-- The cell ids of a plan are the deduplicated, ascending-sorted input
cell ids. -/
theorem plan_cellIds (stage : Stage) (period : Int) (cellIds : List Int) :
    (Plan stage period cellIds).map (fun t => t.id.cellId) =
      cellIds.dedup.insertionSort (· ≤ ·) := by
  rw [Plan, List.map_map]
  simp [Function.comp_def, mkTask]

/-- C9: `Plan(stage, period, cellIds)` is deterministic, yields exactly
one task per given cell id (a task for a cell iff the cell was given,
and each such cell exactly once), every task carries the given stage and
period with status Pending, and the tasks are in strictly ascending cell
id order. -/
theorem plan_spec (stage : Stage) (period : Int) (cellIds : List Int) :
    Plan stage period cellIds = Plan stage period cellIds ∧
    (∀ t ∈ Plan stage period cellIds,
      t = mkTask stage period t.id.cellId ∧ t.id.cellId ∈ cellIds) ∧
    (∀ c, ((Plan stage period cellIds).map (fun t => t.id.cellId)).count c =
      if c ∈ cellIds then 1 else 0) ∧
    ((Plan stage period cellIds).map (fun t => t.id.cellId)).Sorted (· < ·) := by
  have hperm : List.Perm (cellIds.dedup.insertionSort (· ≤ ·)) cellIds.dedup :=
    List.perm_insertionSort (· ≤ ·) cellIds.dedup
  refine ⟨rfl, ?_, ?_, ?_⟩
  · intro t ht
    obtain ⟨c, hc, rfl⟩ := List.mem_map.mp ht
    have hcmem : c ∈ cellIds := List.mem_dedup.mp (hperm.mem_iff.mp hc)
    exact ⟨rfl, hcmem⟩
  · intro c
    rw [plan_cellIds, hperm.count_eq, List.count_dedup]
  · rw [plan_cellIds]
    refine List.Sorted.lt_of_le (List.sorted_insertionSort (· ≤ ·) cellIds.dedup) ?_
    exact hperm.symm.nodup (List.nodup_dedup cellIds)

/-- Witness for C9 at concrete inputs (duplicated, unsorted cell list):
the plan is one Pending task per distinct cell, in ascending order. -/
theorem plan_spec_witness :
    Plan Stage.acquire 2023 [3, 1, 3, 2] =
      [mkTask Stage.acquire 2023 1, mkTask Stage.acquire 2023 2,
        mkTask Stage.acquire 2023 3] ∧
    ((Plan Stage.acquire 2023 [3, 1, 3, 2]).map (fun t => t.id.cellId)).count 3 = 1 := by
  have H := plan_spec Stage.acquire 2023 [3, 1, 3, 2]
  refine ⟨by decide, ?_⟩
  rw [H.2.2.1 3]
  decide

end Pipeline

namespace Pipeline

/-- Membership in the ready set of the Dependency Resolver. -/
theorem eligible_ready_mem (cpA cpB : Checkpoint) (cellIds : List Int) (c : Int) :
    c ∈ (Eligible cellIds cpA cpB).1 ↔
      c ∈ cellIds ∧ statusOf cpA c = some Status.completed ∧
        statusOf cpB c = some Status.completed := by
  induction cellIds with
  | nil => simp [Eligible]
  | cons d rest ih =>
    by_cases hA : statusOf cpA d = some Status.completed
    · by_cases hB : statusOf cpB d = some Status.completed
      · simp only [Eligible, if_pos hA, if_pos hB, List.mem_cons, ih]
        constructor
        · rintro (rfl | ⟨hc, h1, h2⟩)
          · exact ⟨Or.inl rfl, hA, hB⟩
          · exact ⟨Or.inr hc, h1, h2⟩
        · rintro ⟨rfl | hc, h1, h2⟩
          · exact Or.inl rfl
          · exact Or.inr ⟨hc, h1, h2⟩
      · simp only [Eligible, if_pos hA, if_neg hB, ih, List.mem_cons]
        constructor
        · rintro ⟨hc, h1, h2⟩
          exact ⟨Or.inr hc, h1, h2⟩
        · rintro ⟨rfl | hc, h1, h2⟩
          · exact absurd h2 hB
          · exact ⟨hc, h1, h2⟩
    · simp only [Eligible, if_neg hA, ih, List.mem_cons]
      constructor
      · rintro ⟨hc, h1, h2⟩
        exact ⟨Or.inr hc, h1, h2⟩
      · rintro ⟨rfl | hc, h1, h2⟩
        · exact absurd h1 hA
        · exact ⟨hc, h1, h2⟩

/-- A cell blocked already in the first period is skipped with the reason
naming the first period. -/
theorem eligible_skipped_of_blockedA (cpA cpB : Checkpoint) (cellIds : List Int)
    (c : Int) (hc : c ∈ cellIds)
    (hA : statusOf cpA c ≠ some Status.completed) :
    (c, reasonFor cpA.period) ∈ (Eligible cellIds cpA cpB).2 := by
  induction cellIds with
  | nil => cases hc
  | cons d rest ih =>
    rcases List.mem_cons.mp hc with rfl | hcr
    · simp only [Eligible, if_neg hA]
      exact List.mem_cons_self _ _
    · have hmem := ih hcr
      by_cases hA2 : statusOf cpA d = some Status.completed
      · by_cases hB2 : statusOf cpB d = some Status.completed
        · simpa only [Eligible, if_pos hA2, if_pos hB2] using hmem
        · simp only [Eligible, if_pos hA2, if_neg hB2]
          exact List.mem_cons_of_mem _ hmem
      · simp only [Eligible, if_neg hA2]
        exact List.mem_cons_of_mem _ hmem

/-- A cell whose first period is Completed but whose second period is not
is skipped with the reason naming the second period. -/
theorem eligible_skipped_of_blockedB (cpA cpB : Checkpoint) (cellIds : List Int)
    (c : Int) (hc : c ∈ cellIds)
    (hA : statusOf cpA c = some Status.completed)
    (hB : statusOf cpB c ≠ some Status.completed) :
    (c, reasonFor cpB.period) ∈ (Eligible cellIds cpA cpB).2 := by
  induction cellIds with
  | nil => cases hc
  | cons d rest ih =>
    rcases List.mem_cons.mp hc with rfl | hcr
    · simp only [Eligible, if_pos hA, if_neg hB]
      exact List.mem_cons_self _ _
    · have hmem := ih hcr
      by_cases hA2 : statusOf cpA d = some Status.completed
      · by_cases hB2 : statusOf cpB d = some Status.completed
        · simpa only [Eligible, if_pos hA2, if_pos hB2] using hmem
        · simp only [Eligible, if_pos hA2, if_neg hB2]
          exact List.mem_cons_of_mem _ hmem
      · simp only [Eligible, if_neg hA2]
        exact List.mem_cons_of_mem _ hmem

/-- Every input cell is accounted for exactly: its multiplicity in the
ready set plus in the skipped set equals its multiplicity in the input. -/
theorem eligible_count (cpA cpB : Checkpoint) (cellIds : List Int) (c : Int) :
    (Eligible cellIds cpA cpB).1.count c +
      ((Eligible cellIds cpA cpB).2.map Prod.fst).count c = cellIds.count c := by
  induction cellIds with
  | nil => simp [Eligible]
  | cons d rest ih =>
    by_cases hA : statusOf cpA d = some Status.completed
    · by_cases hB : statusOf cpB d = some Status.completed
      · simp only [Eligible, if_pos hA, if_pos hB, List.count_cons]
        omega
      · simp only [Eligible, if_pos hA, if_neg hB, List.map_cons, List.count_cons]
        omega
    · simp only [Eligible, if_neg hA, List.map_cons, List.count_cons]
      omega

end Pipeline

namespace Pipeline

/-- C3: the Dependency Resolver places a cell in ready iff its Persist
task is Completed in both periods; any blocked cell is skipped with a
reason naming the blocking period (the first period when it is blocked
there, otherwise the second); and every input cell lands in exactly one
of the two output sets. -/
theorem eligible_spec (cellIds : List Int) (cpA cpB : Checkpoint) :
    (∀ c, c ∈ (Eligible cellIds cpA cpB).1 ↔
      c ∈ cellIds ∧ statusOf cpA c = some Status.completed ∧
        statusOf cpB c = some Status.completed) ∧
    (∀ c ∈ cellIds, statusOf cpA c ≠ some Status.completed →
      (c, reasonFor cpA.period) ∈ (Eligible cellIds cpA cpB).2) ∧
    (∀ c ∈ cellIds, statusOf cpA c = some Status.completed →
      statusOf cpB c ≠ some Status.completed →
      (c, reasonFor cpB.period) ∈ (Eligible cellIds cpA cpB).2) ∧
    (∀ c, (Eligible cellIds cpA cpB).1.count c +
      ((Eligible cellIds cpA cpB).2.map Prod.fst).count c = cellIds.count c) :=
  ⟨fun c => eligible_ready_mem cpA cpB cellIds c,
   fun c hc hA => eligible_skipped_of_blockedA cpA cpB cellIds c hc hA,
   fun c hc hA hB => eligible_skipped_of_blockedB cpA cpB cellIds c hc hA hB,
   fun c => eligible_count cpA cpB cellIds c⟩

/-- C3 witness: the Persist/2023 checkpoint with cell 5 Completed. -/
def w3cpA : Checkpoint :=
  { stageName := Stage.persist, period := 2023, totalTasks := 1,
    completedTasks := 1, failedTasks := 0, skippedTasks := 0,
    tasks := [{ id := ⟨Stage.persist, 2023, 5⟩, status := Status.completed }] }

/-- C3 witness: the Persist/2024 checkpoint with cell 5 Failed. -/
def w3cpB : Checkpoint :=
  { stageName := Stage.persist, period := 2024, totalTasks := 1,
    completedTasks := 0, failedTasks := 1, skippedTasks := 0,
    tasks := [{ id := ⟨Stage.persist, 2024, 5⟩, status := Status.failed }] }

/-- Witness for C3 at the spec's example: Persist(5, 2023) Completed and
Persist(5, 2024) Failed puts cell 5 in skipped with a reason referencing
period 2024, not in ready. -/
theorem eligible_spec_witness :
    (5, reasonFor 2024) ∈ (Eligible [5] w3cpA w3cpB).2 ∧
      ¬ 5 ∈ (Eligible [5] w3cpA w3cpB).1 := by
  have H := eligible_spec [5] w3cpA w3cpB
  constructor
  · have := H.2.2.1 5 (by decide) (by decide) (by decide)
    simpa [w3cpB] using this
  · intro hmem
    have := (H.1 5).mp hmem
    have hB := this.2.2
    rw [w3cpB] at hB
    simp [statusOf] at hB

end Pipeline

namespace Pipeline

/-- Folding any sequence of temporary-file writes never changes the
canonical file. -/
theorem canonical_foldl_writes (ops : List DiskOp) (d : Disk)
    (h : ∀ op ∈ ops, ∃ b, op = DiskOp.writeTemp b) :
    (ops.foldl opApply d).canonical = d.canonical := by
  induction ops generalizing d with
  | nil => rfl
  | cons op ops ih =>
    obtain ⟨b, rfl⟩ := h op (List.mem_cons_self _ _)
    rw [List.foldl_cons]
    rw [ih (opApply d (DiskOp.writeTemp b)) fun o ho => h o (List.mem_cons_of_mem _ ho)]
    rfl

/-- Folding a nonempty sequence of temporary-file writes ends with the
canonical file untouched and the temporary file holding the last write. -/
theorem foldl_writes_last (bs : List (List Nat)) (b0 : List Nat) (d : Disk) :
    ((bs ++ [b0]).map DiskOp.writeTemp).foldl opApply d =
      { canonical := d.canonical, temp := some b0 } := by
  induction bs generalizing d with
  | nil => rfl
  | cons b bs ih => exact ih (opApply d (DiskOp.writeTemp b))

/-- Folding the complete save sequence installs exactly the new bytes
as the canonical file. -/
theorem foldl_saveOps (d : Disk) (new : List Nat) :
    ((saveOps new).foldl opApply d).canonical = new := by
  have hsplit : (List.range (new.length + 1)).map
      (fun i => DiskOp.writeTemp (new.take i)) =
      (((List.range new.length).map fun i => new.take i) ++
        [new.take new.length]).map DiskOp.writeTemp := by
    simp [List.range_succ, List.map_map]
  rw [saveOps, hsplit, List.foldl_append, foldl_writes_last]
  simp [opApply, List.take_length]

/-- C5: the save discipline is atomic with respect to process crash — a
crash after any number `k` of its atomic disk operations leaves the
canonical checkpoint equal to the complete pre-save bytes or to the
complete new bytes, never a truncated mixture; in particular a crash at
any point up to and including the last temp write (before the final
rename) leaves exactly the pre-save value, and the completed sequence
installs the new value. -/
theorem save_atomic (d : Disk) (new : List Nat) :
    (∀ k, readCanonical (crashDuring d new k) = readCanonical d ∨
      readCanonical (crashDuring d new k) = new) ∧
    (∀ k, k ≤ new.length + 1 →
      readCanonical (crashDuring d new k) = readCanonical d) ∧
    readCanonical (crashDuring d new (saveOps new).length) = new := by
  have hlen : (saveOps new).length = new.length + 2 := by
    simp [saveOps]
  have hbefore : ∀ k, k ≤ new.length + 1 →
      readCanonical (crashDuring d new k) = readCanonical d := by
    intro k hk
    rw [crashDuring, saveOps, List.take_append_of_le_length (by simpa using hk)]
    rw [readCanonical, readCanonical]
    apply canonical_foldl_writes
    intro op hop
    have hop2 : op ∈ (List.range (new.length + 1)).map
        fun i => DiskOp.writeTemp (new.take i) := List.take_subset _ _ hop
    obtain ⟨i, _, rfl⟩ := List.mem_map.mp hop2
    exact ⟨_, rfl⟩
  have hfull : readCanonical (crashDuring d new (saveOps new).length) = new := by
    rw [crashDuring, List.take_length, readCanonical]
    exact foldl_saveOps d new
  refine ⟨?_, hbefore, hfull⟩
  intro k
  by_cases hk : k ≤ new.length + 1
  · exact Or.inl (hbefore k hk)
  · right
    have hge : (saveOps new).length ≤ k := by omega
    rw [crashDuring, List.take_of_length_le hge, readCanonical]
    exact foldl_saveOps d new

/-- Witness for C5 at concrete inputs: a crash one operation before the
rename of a 3-byte save leaves the old canonical bytes; the completed
save leaves the new bytes. -/
theorem save_atomic_witness :
    readCanonical (crashDuring ⟨[7, 7], none⟩ [1, 2, 3] 4) = [7, 7] ∧
      readCanonical (crashDuring ⟨[7, 7], none⟩ [1, 2, 3] 5) = [1, 2, 3] := by
  have H := save_atomic ⟨[7, 7], none⟩ [1, 2, 3]
  exact ⟨H.2.1 4 (by decide), H.2.2⟩

end Pipeline

namespace Pipeline

/-- One scheduler step of the bounded pool preserves the in-flight
bound. -/
theorem runnerStep_bound (maxConcurrency : Nat) (s s2 : RunnerState)
    (e : RunnerEvent) (hstep : runnerStep maxConcurrency s e = some s2)
    (hs : s.inFlight.length ≤ maxConcurrency) :
    s2.inFlight.length ≤ maxConcurrency := by
  cases e with
  | dispatch =>
    rw [runnerStep] at hstep
    cases hp : s.pending with
    | nil => rw [hp] at hstep; cases hstep
    | cons t rest =>
      rw [hp] at hstep
      simp only [] at hstep
      by_cases hlt : s.inFlight.length < maxConcurrency
      · rw [if_pos hlt] at hstep
        cases hstep
        simpa using hlt
      · rw [if_neg hlt] at hstep
        cases hstep
  | finish t =>
    rw [runnerStep] at hstep
    by_cases hmem : t ∈ s.inFlight
    · rw [if_pos hmem] at hstep
      cases hstep
      simp only []
      rw [List.length_erase_of_mem hmem]
      omega
    · rw [if_neg hmem] at hstep
      cases hstep

/-- Executing any event sequence from a bounded state keeps the bound. -/
theorem runnerExec_bound (maxConcurrency : Nat) (evts : List RunnerEvent)
    (s s2 : RunnerState)
    (hrun : runnerExec maxConcurrency s evts = some s2)
    (hs : s.inFlight.length ≤ maxConcurrency) :
    s2.inFlight.length ≤ maxConcurrency := by
  induction evts generalizing s with
  | nil =>
    rw [runnerExec] at hrun
    cases hrun
    exact hs
  | cons e es ih =>
    rw [runnerExec] at hrun
    cases hstep : runnerStep maxConcurrency s e with
    | none => rw [hstep] at hrun; cases hrun
    | some s1 =>
      rw [hstep] at hrun
      exact ih s1 hrun (runnerStep_bound maxConcurrency s s1 e hstep hs)

/-- C8: during a batch, the Stage Runner never has more than
`maxConcurrency` Process calls simultaneously in flight — after any
realizable event sequence from the initial batch state, the set of
in-flight calls is bounded by `maxConcurrency`. -/
theorem concurrency_bound (maxConcurrency : Nat) (tasks : List TaskId)
    (evts : List RunnerEvent) (s : RunnerState)
    (hrun : runnerExec maxConcurrency (initRunner tasks) evts = some s) :
    s.inFlight.length ≤ maxConcurrency :=
  runnerExec_bound maxConcurrency evts (initRunner tasks) s hrun
    (by simp [initRunner])

/-- C8 witness task ids. -/
def w8tasks : List TaskId :=
  (List.range 8).map fun i => ⟨Stage.deriveChange, 2024, Int.ofNat i⟩

/-- C8 witness event sequence: four dispatches fill the pool of size 4,
one finish frees a slot, one more dispatch refills it. -/
def w8evts : List RunnerEvent :=
  [RunnerEvent.dispatch, RunnerEvent.dispatch, RunnerEvent.dispatch,
   RunnerEvent.dispatch, RunnerEvent.finish ⟨Stage.deriveChange, 2024, 0⟩,
   RunnerEvent.dispatch]

/-- Witness for C8 at concrete inputs with `maxConcurrency = 4`. -/
theorem concurrency_bound_witness :
    ∃ s, runnerExec 4 (initRunner w8tasks) w8evts = some s ∧
      s.inFlight.length ≤ 4 := by
  cases hrun : runnerExec 4 (initRunner w8tasks) w8evts with
  | none => exact absurd hrun (by decide)
  | some s => exact ⟨s, rfl, concurrency_bound 4 w8tasks w8evts s hrun⟩

end Pipeline

namespace Schema

/-- The freshly inserted row conflicts with its own arguments. -/
theorem eoKeyMatch_newEoRow {Geo : Type} (nextId : Nat) (a : UpsertArgs Geo) :
    eoKeyMatch a (newEoRow nextId a) = true := by
  simp [eoKeyMatch, newEoRow]

/-- The conflict-update clause never touches the key columns, so it
preserves whether a row conflicts. -/
theorem eoKeyMatch_overwriteRow {Geo : Type} (r : EoRow Geo) (a : UpsertArgs Geo) :
    eoKeyMatch a (overwriteRow r a) = eoKeyMatch a r := by
  simp [eoKeyMatch, overwriteRow]

/-- Overwriting with the same arguments twice is the same as once. -/
theorem overwriteRow_overwriteRow {Geo : Type} (r : EoRow Geo) (a : UpsertArgs Geo) :
    overwriteRow (overwriteRow r a) a = overwriteRow r a :=
  rfl

/-- Overwriting a row freshly built from the same arguments changes
nothing. -/
theorem overwriteRow_newEoRow {Geo : Type} (nextId : Nat) (a : UpsertArgs Geo) :
    overwriteRow (newEoRow nextId a) a = newEoRow nextId a :=
  rfl

/-- C7: `upsert_eo` is idempotent on the `(grid_id, month, time)` key
protected by `eo_unique_grid_month`: under the unique constraint (at most
one conflicting row), after one call exactly one row carries the key and
it carries exactly the argument values, and a second call with identical
arguments is a no-op on the table — it overwrites the conflicting row
with the same values instead of creating a duplicate or failing. -/
theorem upsert_eo_idempotent {Geo : Type} (tbl : List (EoRow Geo))
    (nextId : Nat) (a : UpsertArgs Geo)
    (hU : (tbl.filter (eoKeyMatch a)).length ≤ 1) :
    (upsert_eo (upsert_eo tbl nextId a).1 (upsert_eo tbl nextId a).2 a).1 =
      (upsert_eo tbl nextId a).1 ∧
    ((upsert_eo tbl nextId a).1.filter (eoKeyMatch a)).length = 1 ∧
    (∀ r ∈ (upsert_eo tbl nextId a).1, eoKeyMatch a r = true →
      overwriteRow r a = r) := by
  by_cases hAny : tbl.any (eoKeyMatch a) = true
  · have hT1 : (upsert_eo tbl nextId a).1 =
        tbl.map fun r => if eoKeyMatch a r then overwriteRow r a else r := by
      rw [upsert_eo, if_pos hAny]
    have h3 : ∀ r ∈ (upsert_eo tbl nextId a).1, eoKeyMatch a r = true →
        overwriteRow r a = r := by
      rw [hT1]
      intro r hr hmatch
      obtain ⟨u, hu, rfl⟩ := List.mem_map.mp hr
      by_cases hm : eoKeyMatch a u = true
      · rw [if_pos hm, overwriteRow_overwriteRow]
      · rw [if_neg hm] at hmatch ⊢
        exact absurd hmatch hm
    have h2 : ((upsert_eo tbl nextId a).1.filter (eoKeyMatch a)).length = 1 := by
      rw [hT1, ← List.countP_eq_length_filter, List.countP_map]
      have hU2 : tbl.countP (eoKeyMatch a) ≤ 1 := by
        rw [List.countP_eq_length_filter]
        exact hU
      have hcongr : tbl.countP
          (eoKeyMatch a ∘ fun r => if eoKeyMatch a r then overwriteRow r a else r) =
            tbl.countP (eoKeyMatch a) := by
        apply List.countP_congr
        intro u _
        simp only [Function.comp_apply]
        by_cases hm : eoKeyMatch a u = true
        · rw [if_pos hm, eoKeyMatch_overwriteRow]
        · rw [if_neg hm]
      rw [hcongr]
      obtain ⟨u, hu, hum⟩ := List.any_eq_true.mp hAny
      have hge : 1 ≤ tbl.countP (eoKeyMatch a) := by
        rw [List.countP_eq_length_filter]
        have hmemf : u ∈ tbl.filter (eoKeyMatch a) := List.mem_filter.mpr ⟨hu, hum⟩
        exact List.length_pos.mpr (fun hnil => by simp [hnil] at hmemf)
      omega
    refine ⟨?_, h2, h3⟩
    have hAny1 : (upsert_eo tbl nextId a).1.any (eoKeyMatch a) = true := by
      have hpos : 0 < ((upsert_eo tbl nextId a).1.filter (eoKeyMatch a)).length := by
        omega
      obtain ⟨r, hr⟩ := List.exists_mem_of_length_pos hpos
      have := List.mem_filter.mp hr
      exact List.any_eq_true.mpr ⟨r, this.1, this.2⟩
    rw [upsert_eo, if_pos hAny1]
    simp only []
    have : ∀ r ∈ (upsert_eo tbl nextId a).1,
        (if eoKeyMatch a r then overwriteRow r a else r) = r := by
      intro r hr
      by_cases hm : eoKeyMatch a r = true
      · rw [if_pos hm]
        exact h3 r hr hm
      · rw [if_neg hm]
    rw [List.map_congr_left this]
    simp
  · have hT1 : (upsert_eo tbl nextId a).1 = tbl ++ [newEoRow nextId a] := by
      rw [upsert_eo, if_neg hAny]
    have hnotbl : ∀ u ∈ tbl, ¬ eoKeyMatch a u = true := by
      intro u hu hum
      exact hAny (List.any_eq_true.mpr ⟨u, hu, hum⟩)
    have h3 : ∀ r ∈ (upsert_eo tbl nextId a).1, eoKeyMatch a r = true →
        overwriteRow r a = r := by
      rw [hT1]
      intro r hr hmatch
      rcases List.mem_append.mp hr with hrl | hrr
      · exact absurd hmatch (hnotbl r hrl)
      · rw [List.mem_singleton.mp hrr]
        exact overwriteRow_newEoRow nextId a
    have h2 : ((upsert_eo tbl nextId a).1.filter (eoKeyMatch a)).length = 1 := by
      rw [hT1, List.filter_append]
      rw [List.filter_eq_nil_iff.mpr hnotbl]
      simp [eoKeyMatch_newEoRow]
    refine ⟨?_, h2, h3⟩
    have hAny1 : (upsert_eo tbl nextId a).1.any (eoKeyMatch a) = true := by
      refine List.any_eq_true.mpr ⟨newEoRow nextId a, ?_, eoKeyMatch_newEoRow nextId a⟩
      rw [hT1]
      exact List.mem_append_right _ (List.mem_singleton_self _)
    rw [upsert_eo, if_pos hAny1]
    simp only []
    have : ∀ r ∈ (upsert_eo tbl nextId a).1,
        (if eoKeyMatch a r then overwriteRow r a else r) = r := by
      intro r hr
      by_cases hm : eoKeyMatch a r = true
      · rw [if_pos hm]
        exact h3 r hr hm
      · rw [if_neg hm]
    rw [List.map_congr_left this]
    simp

/-- C7 witness arguments: one image for grid cell 531, June 2024. -/
def w7a : UpsertArgs Unit :=
  { p_time := ⟨2024, 6, 15, 36000⟩, p_grid_id := 531, p_bbox := (),
    p_width := some 512, p_height := some 512, p_data_type := some "uint16" }

/-- Witness for C7 at concrete inputs: inserting the same image twice
from an empty table leaves the table of the first call unchanged, with
exactly one row for the key. -/
theorem upsert_eo_idempotent_witness :
    (upsert_eo (upsert_eo ([] : List (EoRow Unit)) 1 w7a).1
        (upsert_eo ([] : List (EoRow Unit)) 1 w7a).2 w7a).1 =
      (upsert_eo ([] : List (EoRow Unit)) 1 w7a).1 ∧
    ((upsert_eo ([] : List (EoRow Unit)) 1 w7a).1.filter (eoKeyMatch w7a)).length = 1 := by
  have H := upsert_eo_idempotent ([] : List (EoRow Unit)) 1 w7a (by decide)
  exact ⟨H.1, H.2.1⟩

end Schema

namespace Schema

/-- C10: the `eo_validate_and_populate` trigger (assuming grid cells of
positive area, as real 5km x 5km cells have): it raises — so the insert
or update stores no row — exactly when the row's `grid_id` has no entry
in `grid_cells` or the overlap of the row's bbox with the cell's
`bbox_4326` is below 99 percent of the cell's area; otherwise the stored
row is the input row with its `month` column set to the first day of the
month of its `time` column. -/
theorem eo_validate_spec {Geo : Type} (area : Geo → ℚ)
    (inter : Geo → Geo → Geo) (grid_cells : List (Int × Geo))
    (tbl : List (EoRow Geo)) (row : EoRow Geo)
    (hpos : ∀ gc ∈ grid_cells, 0 < area gc.2) :
    ((∃ e, eo_validate_and_populate area inter grid_cells row =
        Except.error e) ↔
      ((grid_cells.find? fun gc => decide (gc.1 = row.grid_id)) = none ∨
        ∃ gc, (grid_cells.find? fun gc => decide (gc.1 = row.grid_id)) =
            some gc ∧
          area (inter gc.2 row.bbox) < 99 / 100 * area gc.2)) ∧
    (∀ r2, eo_validate_and_populate area inter grid_cells row =
        Except.ok r2 →
      r2 = { row with month := ⟨row.time.year, row.time.month, 1⟩ }) ∧
    (∀ e, eo_validate_and_populate area inter grid_cells row =
        Except.error e →
      (insertEoValidated area inter grid_cells tbl row).1 = tbl) ∧
    (∀ r2, eo_validate_and_populate area inter grid_cells row =
        Except.ok r2 →
      (insertEoValidated area inter grid_cells tbl row).1 = tbl ++ [r2]) := by
  have hins : ∀ x, eo_validate_and_populate area inter grid_cells row = x →
      (insertEoValidated area inter grid_cells tbl row) =
        (match x with
          | Except.error e => (tbl, some e)
          | Except.ok r => (tbl ++ [r], none)) := by
    intro x hx
    rw [insertEoValidated, hx]
  cases hfind : grid_cells.find? fun gc => decide (gc.1 = row.grid_id) with
  | none =>
    have heval : eo_validate_and_populate area inter grid_cells row =
        Except.error ("Invalid grid_id: " ++ toString row.grid_id) := by
      rw [eo_validate_and_populate, hfind]
      rfl
    refine ⟨?_, ?_, ?_, ?_⟩
    · simp [heval]
    · intro r2 hr2
      rw [heval] at hr2
      cases hr2
    · intro e he
      rw [hins _ heval]
    · intro r2 hr2
      rw [heval] at hr2
      cases hr2
  | some gc =>
    have hgpos : 0 < area gc.2 := hpos gc (List.mem_of_find?_eq_some hfind)
    have hiff : (area (inter gc.2 row.bbox) / area gc.2 * 100 < 99) ↔
        (area (inter gc.2 row.bbox) < 99 / 100 * area gc.2) := by
      rw [div_mul_eq_mul_div, div_lt_iff₀ hgpos, div_mul_eq_mul_div,
        lt_div_iff₀ (by norm_num : (0 : ℚ) < 100)]
    by_cases hcond : area (inter gc.2 row.bbox) / area gc.2 * 100 < 99
    · have heval : eo_validate_and_populate area inter grid_cells row =
          Except.error
            ("Image bbox must have at least 99% overlap with grid cell " ++
              toString row.grid_id) := by
        rw [eo_validate_and_populate, hfind]
        simp only [Option.map]
        rw [if_pos hcond]
      refine ⟨?_, ?_, ?_, ?_⟩
      · simp only [heval]
        constructor
        · intro _
          exact Or.inr ⟨gc, rfl, hiff.mp hcond⟩
        · intro _
          exact ⟨_, rfl⟩
      · intro r2 hr2
        rw [heval] at hr2
        cases hr2
      · intro e he
        rw [hins _ heval]
      · intro r2 hr2
        rw [heval] at hr2
        cases hr2
    · have heval : eo_validate_and_populate area inter grid_cells row =
          Except.ok { row with month := dateTruncMonth row.time } := by
        rw [eo_validate_and_populate, hfind]
        simp only [Option.map]
        rw [if_neg hcond]
      refine ⟨?_, ?_, ?_, ?_⟩
      · simp only [heval]
        constructor
        · rintro ⟨e, he⟩
          cases he
        · rintro (hn | ⟨gc2, hgc2, hlt⟩)
          · cases hn
          · cases hgc2
            exact absurd (hiff.mpr hlt) hcond
      · intro r2 hr2
        rw [heval] at hr2
        cases hr2
        rfl
      · intro e he
        rw [heval] at he
        cases he
      · intro r2 hr2
        rw [hins _ heval, heval] at *
        cases hr2
        rfl

/-- C10 witness grid: one grid cell with id 5 and area 4. -/
def w10grid : List (Int × ℚ) := [(5, 4)]

/-- C10 witness row: a fully overlapping image for grid cell 5 taken in
June 2024, with the month column not yet populated. -/
def w10row : EoRow ℚ :=
  { id := 0, time := ⟨2024, 6, 15, 36000⟩, month := ⟨1970, 1, 1⟩,
    grid_id := 5, bbox := 4, width := some 512, height := some 512,
    data_type := some "uint16", b01 := none, b02 := none, b03 := none,
    b04 := none, b05 := none, b06 := none, b07 := none, b08 := none,
    b8a := none, b09 := none, b10 := none, b11 := none, b12 := none }

/-- C10 witness row with an unknown grid id. -/
def w10rowBad : EoRow ℚ := { w10row with grid_id := 6 }

/-- Witness for C10 at concrete inputs (`area` is the interval-length
model of `ST_Area` and `min` the interval model of `ST_Intersection`):
the valid row is stored with month 2024-06-01; the row with an unknown
grid id raises and stores nothing. -/
theorem eo_validate_spec_witness :
    (insertEoValidated (fun q : ℚ => q) min w10grid [] w10row).1 =
      [{ w10row with month := ⟨2024, 6, 1⟩ }] ∧
    (insertEoValidated (fun q : ℚ => q) min w10grid [] w10rowBad).1 = [] := by
  have hpos1 : ∀ gc ∈ w10grid, 0 < (fun q : ℚ => q) gc.2 := by
    intro gc hgc
    rw [w10grid, List.mem_singleton] at hgc
    rw [hgc]
    norm_num
  have H := eo_validate_spec (fun q : ℚ => q) min w10grid [] w10row hpos1
  have HB := eo_validate_spec (fun q : ℚ => q) min w10grid [] w10rowBad hpos1
  have hfindg : (w10grid.find? fun gc => decide (gc.1 = w10row.grid_id)) =
      some (5, (4 : ℚ)) := rfl
  have hfindb : (w10grid.find? fun gc => decide (gc.1 = w10rowBad.grid_id)) =
      none := rfl
  constructor
  · cases heval : eo_validate_and_populate (fun q : ℚ => q) min w10grid w10row with
    | error e =>
      exfalso
      rcases H.1.mp ⟨e, heval⟩ with hn | ⟨gc, hgc, hlt⟩
      · rw [hfindg] at hn
        cases hn
      · rw [hfindg] at hgc
        cases hgc
        have hb : w10row.bbox = (4 : ℚ) := rfl
        rw [hb] at hlt
        norm_num [min_self] at hlt
    | ok r2 =>
      have h2 := H.2.1 r2 heval
      have h4 := H.2.2.2 r2 heval
      rw [h4, h2]
      rfl
  · cases heval : eo_validate_and_populate (fun q : ℚ => q) min w10grid w10rowBad with
    | error e => exact HB.2.2.1 e heval
    | ok r2 =>
      exfalso
      obtain ⟨e, he⟩ := HB.1.mpr (Or.inl hfindb)
      rw [heval] at he
      cases he

end Schema
